import Mathlib

/-!
Shallow embedding of the us-scraping crawler (src/us_army.py) and proofs of the
specification claims about it.

Modelling conventions:
- A fetched page (BeautifulSoup document) is modelled as a `Doc` holding, for each
  CSS selector the program uses, the ordered list of matching elements.  An element
  carries the result of `get_text(strip=True)` and its `href` attribute.
- The network is a `World`: a function from URL to `Option Doc` (`none` = fetch
  failure, which `get_soup` absorbs by returning `None`).
- The module-level mutable `visited_urls` set and the fetch trace (the program's
  "[INFO] Fetching:" log) are threaded explicitly as a state `St`.  The set is
  modelled as a duplicate-free insertion list (`addVisited` is idempotent, like
  `set.add`).
- `time.sleep` and `print` calls have no observable effect on the data model and
  are dropped; the fetch log records every `get_soup` call in order.
- The recursion of `scrape_nested_structure` is bounded by
  `max_depth + 1 - depth`; `scrape_nested_go` makes that bound a structural
  parameter (`gas`).  `scrape_nested_structure_eq` below proves the resulting
  function satisfies exactly the recurrence of the Python code.
-/

/-- Result of selecting one element: its `get_text(strip=True)` text and its
`href` attribute (absent when the tag has none). -/
structure Elem where
  text : String
  href : Option String
deriving DecidableEq

/-- Result of selecting one "div > a:has(h4)" anchor: the text of its `h4`
child if present (`a_tag.find('h4')`), and its `href` attribute. -/
structure Anchor where
  h4 : Option String
  href : Option String
deriving DecidableEq

/-- A fetched, parsed page: for each selector in `SELECTORS` (plus the
"div > a:has(h4)" pattern used by `scrape_main_components`), the ordered list
of elements `soup.select(...)` returns. -/
structure Doc where
  flat_list : List Elem
  first_level : List Elem
  second_level : List Elem
  third_level : List Elem
  full_unit_name : List Elem
  location_name : List Elem
  location_details : List Elem
  main_anchors : List Anchor
deriving DecidableEq

def BASE_URL : String := "https://currentops.com"

def TARGET_URL : String := "https://currentops.com/units/us"

/-- The external network: which URLs resolve to which documents. -/
structure World where
  pages : String → Option Doc

/-- The program state threaded through the crawl: the module-level
`visited_urls` set (as a duplicate-free list) and the trace of URLs passed to
`get_soup`, in order. -/
structure St where
  visited : List String
  log : List String
deriving DecidableEq

/-- Model of `get_soup(url)`: the fetch attempt is recorded in the log; the
result is the page if the world has one, `none` on failure (the Python
function catches every exception and returns `None`). -/
def get_soup (w : World) (url : String) (s : St) : Option Doc × St :=
  (w.pages url, { s with log := s.log ++ [url] })

/-- Model of `visited_urls.add(url)` (idempotent set insertion). -/
def addVisited (url : String) (s : St) : St :=
  if url ∈ s.visited then s else { s with visited := url :: s.visited }

/-- Model of the external `requests.compat.urljoin(base, href)` collaborator
(the exact join algorithm is irrelevant to the claims; only that it is a
function of base and href). -/
def urljoin (base href : String) : String := base ++ href

/-- Model of Python's `s.startswith(pre)` (a character-level prefix test). -/
def starts_with (s pre : String) : Bool :=
  List.isPrefixOf pre.data s.data

/-- The resolution step `if href and not href.startswith('http'): href =
urljoin(base, href)` applied by every scraping pass. -/
def resolve_href (base href : String) : String :=
  if href ≠ "" ∧ ¬ starts_with href "http" then urljoin base href else href

/-- Model of `has_nested_structure(soup)`: true iff the second-level selector
matches at least one element. -/
def has_nested_structure (soup : Doc) : Bool :=
  decide (soup.second_level.length > 0)

/-- The `additional_info` mapping built by `extract_additional_info`: each key
is either absent (`none`) or present with a string value. -/
structure Info where
  full_unit_name : Option String
  location_name : Option String
  location_details : Option String
deriving DecidableEq

def Info.empty : Info := ⟨none, none, none⟩

/-- Model of `extract_additional_info(soup)`: for each of the three selectors,
if at least one element matches, the key is bound to the first match's
`get_text(strip=True)`; otherwise the key is absent. -/
def extract_additional_info (soup : Doc) : Info :=
  { full_unit_name :=
      match soup.full_unit_name with
      | [] => none
      | e :: _ => some e.text
    location_name :=
      match soup.location_name with
      | [] => none
      | e :: _ => some e.text
    location_details :=
      match soup.location_details with
      | [] => none
      | e :: _ => some e.text }

/-- Node kinds: the `type` tag of each produced record. -/
inductive NodeType where
  | main_branch
  | subcategory
  | flat_item
  | level_item (n : Nat)
deriving DecidableEq

/-- A produced record (a Python dict in the source).  Metadata keys and the
three child-collection keys (`subcategories`, `units`, `subunits`) are
`none` when the key is absent from the dict. -/
inductive Node where
  | mk (name : String) (url : Option String) (type : NodeType)
       (full_unit_name location_name location_details : Option String)
       (subcategories units subunits : Option (List Node))

def Node.name : Node → String
  | .mk n _ _ _ _ _ _ _ _ => n

def Node.url : Node → Option String
  | .mk _ u _ _ _ _ _ _ _ => u

def Node.type : Node → NodeType
  | .mk _ _ t _ _ _ _ _ _ => t

def Node.full_unit_name : Node → Option String
  | .mk _ _ _ f _ _ _ _ _ => f

def Node.location_name : Node → Option String
  | .mk _ _ _ _ l _ _ _ _ => l

def Node.location_details : Node → Option String
  | .mk _ _ _ _ _ d _ _ _ => d

def Node.subcategories : Node → Option (List Node)
  | .mk _ _ _ _ _ _ sc _ _ => sc

def Node.units : Node → Option (List Node)
  | .mk _ _ _ _ _ _ _ un _ => un

def Node.subunits : Node → Option (List Node)
  | .mk _ _ _ _ _ _ _ _ su => su

/-- One iteration of the `scrape_flat_structure` loop body: `none` means the
candidate was skipped (`continue`), `some item` means a flat node was built.
The state records the metadata fetch when one was attempted. -/
def flat_step (w : World) (base_url : String) (element : Elem) (s : St) :
    Option Node × St :=
  if element.text = "" then (none, s)
  else
    match element.href with
    | none => (none, s)
    | some h =>
      let href := resolve_href base_url h
      let (item_soup, s1) := get_soup w href s
      let info :=
        match item_soup with
        | some d => extract_additional_info d
        | none => Info.empty
      (some (Node.mk element.text (some href) NodeType.flat_item
        info.full_unit_name info.location_name info.location_details
        none none none), s1)

/-- The `scrape_flat_structure` loop over the selected flat-list elements. -/
def flat_loop (w : World) (base_url : String) : List Elem → St → List Node × St
  | [], s => ([], s)
  | element :: rest, s =>
    match flat_step w base_url element s with
    | (none, s1) => flat_loop w base_url rest s1
    | (some item, s1) =>
      let (rest_items, s2) := flat_loop w base_url rest s1
      (item :: rest_items, s2)

/-- Model of `scrape_flat_structure(soup, base_url)`.  Note: it neither
consults nor updates the visited set, and fetches each linked page to pull
its metadata. -/
def scrape_flat_structure (w : World) (soup : Doc) (base_url : String) (s : St) :
    List Node × St :=
  flat_loop w base_url soup.flat_list s

/-- One iteration of the loop body of `scrape_nested_structure` over child
elements, with the recursive call abstracted as `rec_fn` (instantiated with
the nested pass at `depth + 1`).  `none` means the candidate was skipped. -/
def child_step (w : World) (rec_fn : String → St → List Node × St)
    (depth max_depth : Nat) (element : Elem) (s : St) : Option Node × St :=
  if element.text = "" then (none, s)
  else
    match element.href with
    | none => (none, s)
    | some h =>
      let href := resolve_href BASE_URL h
      if href ∈ s.visited then (none, s)
      else
        let (item_soup, s1) := get_soup w href s
        let info :=
          match item_soup with
          | some d => extract_additional_info d
          | none => Info.empty
        let (subunits_field, s2) :=
          if depth < max_depth then
            match item_soup with
            | some isoup =>
              if has_nested_structure isoup then
                let (sub_items, s2) := rec_fn href s1
                ((if sub_items.isEmpty then none else some sub_items), s2)
              else
                let (flat_items, s2) := scrape_flat_structure w isoup href s1
                ((if flat_items.isEmpty then none else some flat_items), s2)
            | none => (none, s1)
          else (none, s1)
        (some (Node.mk element.text (some href) (NodeType.level_item (depth + 1))
          info.full_unit_name info.location_name info.location_details
          none none subunits_field), s2)

/-- The loop of `scrape_nested_structure` over the selected child elements. -/
def nested_children (w : World) (rec_fn : String → St → List Node × St)
    (depth max_depth : Nat) : List Elem → St → List Node × St
  | [], s => ([], s)
  | element :: rest, s =>
    match child_step w rec_fn depth max_depth element s with
    | (none, s1) => nested_children w rec_fn depth max_depth rest s1
    | (some item, s1) =>
      let (rest_items, s2) := nested_children w rec_fn depth max_depth rest s1
      (item :: rest_items, s2)

/-- Body of `scrape_nested_structure`, made structurally recursive on the gas
`max_depth + 1 - depth` (which the guard `depth > max_depth` makes positive
exactly when the Python body runs). -/
def scrape_nested_go (w : World) : Nat → String → Nat → Nat → St → List Node × St
  | 0, _, _, _, s => ([], s)
  | gas + 1, url, depth, max_depth, s =>
    if url ∈ s.visited ∨ depth > max_depth then ([], s)
    else
      let s1 := addVisited url s
      let (soup_opt, s2) := get_soup w url s1
      match soup_opt with
      | none => ([], s2)
      | some soup =>
        let elements :=
          if depth = 0 then soup.first_level
          else if depth = 1 then soup.second_level
          else soup.third_level
        nested_children w
          (fun u st => scrape_nested_go w gas u (depth + 1) max_depth st)
          depth max_depth elements s2

/-- Model of `scrape_nested_structure(url, depth, max_depth)`.  (The Python
body also computes `page_info = extract_additional_info(soup)` and never uses
it; being pure, it is dropped.) -/
def scrape_nested_structure (w : World) (url : String) (depth max_depth : Nat)
    (s : St) : List Node × St :=
  scrape_nested_go w (max_depth + 1 - depth) url depth max_depth s

/-- One iteration of the subcategory loop in `scrape_main_components`:
`none` when the candidate is skipped (missing `h4`, or its page fetch fails —
a candidate without `href` has `get_soup(None)` fail).  Subcategories are not
checked against the visited set. -/
def subcat_step (w : World) (sub_a_tag : Anchor) (s : St) : Option Node × St :=
  match sub_a_tag.h4 with
  | none => (none, s)
  | some sub_name =>
    match sub_a_tag.href with
    | none => (none, s)
    | some h =>
      let sub_href := resolve_href BASE_URL h
      let (sub_soup_opt, s1) := get_soup w sub_href s
      match sub_soup_opt with
      | none => (none, s1)
      | some sub_soup =>
        let info := extract_additional_info sub_soup
        let (units_field, s2) :=
          if has_nested_structure sub_soup then
            let (nested_items, s2) := scrape_nested_structure w sub_href 0 3 s1
            ((if nested_items.isEmpty then none else some nested_items), s2)
          else
            let (flat_items, s2) := scrape_flat_structure w sub_soup sub_href s1
            ((if flat_items.isEmpty then none else some flat_items), s2)
        (some (Node.mk sub_name (some sub_href) NodeType.subcategory
          info.full_unit_name info.location_name info.location_details
          none units_field none), s2)

/-- The subcategory loop of `scrape_main_components`. -/
def subcat_loop (w : World) : List Anchor → St → List Node × St
  | [], s => ([], s)
  | sub_a_tag :: rest, s =>
    match subcat_step w sub_a_tag s with
    | (none, s1) => subcat_loop w rest s1
    | (some subcategory, s1) =>
      let (rest_subcats, s2) := subcat_loop w rest s1
      (subcategory :: rest_subcats, s2)

/-- One iteration of the main-branch loop in `scrape_main_components`:
`none` when the candidate is skipped (missing `h4`, already-visited URL, or
its page fetch fails; a candidate without `href` has `get_soup(None)` fail).
After a branch is built, its URL is added to the visited set. -/
def branch_step (w : World) (a_tag : Anchor) (s : St) : Option Node × St :=
  match a_tag.h4 with
  | none => (none, s)
  | some name =>
    match a_tag.href with
    | none => (none, s)
    | some h =>
      let href := resolve_href BASE_URL h
      if href ∈ s.visited then (none, s)
      else
        let (soup_branch_opt, s1) := get_soup w href s
        match soup_branch_opt with
        | none => (none, s1)
        | some soup_branch =>
          let branch_info := extract_additional_info soup_branch
          let (subcategories, s2) := subcat_loop w soup_branch.main_anchors s1
          let component := Node.mk name (some href) NodeType.main_branch
            branch_info.full_unit_name branch_info.location_name
            branch_info.location_details
            (if subcategories.isEmpty then none else some subcategories)
            none none
          (some component, addVisited href s2)

/-- The main-branch loop of `scrape_main_components`. -/
def branch_loop (w : World) : List Anchor → St → List Node × St
  | [], s => ([], s)
  | a_tag :: rest, s =>
    match branch_step w a_tag s with
    | (none, s1) => branch_loop w rest s1
    | (some component, s1) =>
      let (rest_components, s2) := branch_loop w rest s1
      (component :: rest_components, s2)

/-- Model of `scrape_main_components()`: clears the visited set, fetches the
entry URL, and runs the main-branch loop over the "div > a:has(h4)"
candidates of the entry page. -/
def scrape_main_components (w : World) : List Node × St :=
  let s0 : St := ⟨[], []⟩
  let (soup_opt, s1) := get_soup w TARGET_URL s0
  match soup_opt with
  | none => ([], s1)
  | some soup => branch_loop w soup.main_anchors s1

/-- The statistics record built by `count_statistics`. -/
structure Stats where
  main_branches : Nat
  subcategories : Nat
  units : Nat
  subunits : Nat
  flat_items : Nat
  with_location : Nat
  with_full_name : Nat
deriving DecidableEq

/-- Model of the recursive local helper `count_subunits(items)`: returns
(subunit count, flat-item count, location count, full-name count), where the
subunit count sums the lengths of `subunits` lists at every level (so the
items of the argument list themselves are not counted) and an absent
`subunits` key contributes zero. -/
def count_subunits : List Node → Nat × Nat × Nat × Nat
  | [] => (0, 0, 0, 0)
  | .mk _ _ t fu ln ld _ _ none :: rest =>
    let (rest_count, rest_flat, rest_loc, rest_full) := count_subunits rest
    (rest_count,
     (if t = NodeType.flat_item then 1 else 0) + rest_flat,
     (if ln ≠ none ∨ ld ≠ none then 1 else 0) + rest_loc,
     (if fu ≠ none then 1 else 0) + rest_full)
  | .mk _ _ t fu ln ld _ _ (some su) :: rest =>
    let (sub_count, sub_flat, sub_loc, sub_full) := count_subunits su
    let (rest_count, rest_flat, rest_loc, rest_full) := count_subunits rest
    (su.length + sub_count + rest_count,
     (if t = NodeType.flat_item then 1 else 0) + sub_flat + rest_flat,
     (if ln ≠ none ∨ ld ≠ none then 1 else 0) + sub_loc + rest_loc,
     (if fu ≠ none then 1 else 0) + sub_full + rest_full)

/-- The inner subcategory loop of `count_statistics`, accumulating into the
mutable `stats` record. -/
def subcat_stats : List Node → Stats → Stats
  | [], stats => stats
  | subcat :: rest, stats =>
    let loc_inc : Nat :=
      if subcat.location_name ≠ none ∨ subcat.location_details ≠ none then 1 else 0
    let full_inc : Nat := if subcat.full_unit_name ≠ none then 1 else 0
    let units_list := subcat.units.getD []
    let (subunit_count, flat_count, loc_count, full_count) := count_subunits units_list
    subcat_stats rest
      { stats with
        with_location := stats.with_location + loc_inc + loc_count,
        with_full_name := stats.with_full_name + full_inc + full_count,
        units := stats.units + units_list.length,
        subunits := stats.subunits + subunit_count,
        flat_items := stats.flat_items + flat_count }

/-- The outer branch loop of `count_statistics`. -/
def branch_stats : List Node → Stats → Stats
  | [], stats => stats
  | branch :: rest, stats =>
    let loc_inc : Nat :=
      if branch.location_name ≠ none ∨ branch.location_details ≠ none then 1 else 0
    let full_inc : Nat := if branch.full_unit_name ≠ none then 1 else 0
    let subcats := branch.subcategories.getD []
    let stats1 :=
      { stats with
        with_location := stats.with_location + loc_inc,
        with_full_name := stats.with_full_name + full_inc,
        subcategories := stats.subcategories + subcats.length }
    branch_stats rest (subcat_stats subcats stats1)

/-- Model of `count_statistics(data)`: a pure fold over the (immutable) tree. -/
def count_statistics (data : List Node) : Stats :=
  branch_stats data ⟨data.length, 0, 0, 0, 0, 0, 0⟩

/-! Specification-side functions and tree predicates used to state the claims. -/

mutual
/-- Number of strict descendants of a node along `subunits` edges (an absent
`subunits` key contributes zero). -/
def desc_count : Node → Nat
  | .mk _ _ _ _ _ _ _ _ none => 0
  | .mk _ _ _ _ _ _ _ _ (some su) => su.length + desc_sum su

/-- Total number of nodes reachable along `subunits` edges from the items of a
list, the items themselves excluded. -/
def desc_sum : List Node → Nat
  | [] => 0
  | n :: rest => desc_count n + desc_sum rest
end

/-- The sum, over all main branches' subcategories, of the lengths of their
immediate unit lists (absent keys read as empty). -/
def units_spec (data : List Node) : Nat :=
  (data.map (fun b =>
    (((Node.subcategories b).getD []).map
      (fun sc => ((Node.units sc).getD []).length)).sum)).sum

/-- The total count of all nodes reachable via `subunits` edges from the
top-level unit lists, the top-level units themselves excluded. -/
def subunits_spec (data : List Node) : Nat :=
  (data.map (fun b =>
    (((Node.subcategories b).getD []).map
      (fun sc => desc_sum ((Node.units sc).getD []))).sum)).sum

mutual
/-- Predicate `p` holds on a node and, recursively, on every node of its three
child collections. -/
def node_all (p : Node → Bool) : Node → Bool
  | .mk nm u t fu ln ld sc un su =>
    p (.mk nm u t fu ln ld sc un su) && opt_all p sc && opt_all p un && opt_all p su

/-- Lift of `node_all` to an optional child collection (absent = trivially
true). -/
def opt_all (p : Node → Bool) : Option (List Node) → Bool
  | none => true
  | some l => list_all p l

/-- Lift of `node_all` to a list of nodes. -/
def list_all (p : Node → Bool) : List Node → Bool
  | [] => true
  | n :: rest => node_all p n && list_all p rest
end

/-- A kind tag is within depth bound `B`: `flat_item`, or `level_k` with
`k ≤ B` (main branches and subcategories are not produced by the nested
pass). -/
def kind_ok (B : Nat) : NodeType → Bool
  | NodeType.flat_item => true
  | NodeType.level_item k => decide (k ≤ B)
  | _ => false

/-- Every node of the tree has a kind tag within depth bound `B`. -/
def kind_bound (B : Nat) (n : Node) : Bool :=
  node_all (fun m => kind_ok B m.type) n

/-- Every node of the tree has a non-empty name. -/
def names_ok (n : Node) : Bool :=
  node_all (fun m => decide (m.name ≠ "")) n

/-- An optional child collection that is never the present-but-empty list. -/
def opt_ne : Option (List Node) → Bool
  | some [] => false
  | _ => true

/-- None of a node's own three child-collection fields is a
present-but-empty list. -/
def child_fields_ok : Node → Bool :=
  fun m => opt_ne m.subcategories && opt_ne m.units && opt_ne m.subunits

/-- No node of the tree carries a present-but-empty child collection. -/
def no_empty_children (n : Node) : Bool :=
  node_all child_fields_ok n

/-! Concrete documents and worlds used for counterexamples and witnesses. -/

def emptyDoc : Doc := ⟨[], [], [], [], [], [], [], []⟩

def d_c5 : Doc := { emptyDoc with full_unit_name := [⟨"", none⟩] }

def urlA : String := "https://currentops.com/a"

def docA : Doc := { emptyDoc with first_level := [⟨"x", some "http://b"⟩] }

def docB : Doc := { emptyDoc with second_level := [⟨"y", none⟩] }

def w_c1 : World :=
  ⟨fun u => if u = urlA then some docA else if u = "http://b" then some docB else none⟩

def w_c3 : World :=
  ⟨fun u =>
    if u = TARGET_URL then some { emptyDoc with main_anchors := [⟨some "", some "/b"⟩] }
    else if u = "https://currentops.com/b" then some emptyDoc
    else none⟩

def w_c4 : World :=
  ⟨fun u =>
    if u = TARGET_URL then some { emptyDoc with main_anchors := [⟨some "B", some "/b"⟩] }
    else none⟩

def w_c9 : World := ⟨fun u => if u = TARGET_URL then some emptyDoc else none⟩

def w_c10 : World :=
  ⟨fun u =>
    if u = TARGET_URL then some { emptyDoc with main_anchors := [⟨some "B", some "/br"⟩] }
    else if u = "https://currentops.com/br" then
      some { emptyDoc with main_anchors := [⟨some "S", some "/sc"⟩] }
    else if u = "https://currentops.com/sc" then
      some { emptyDoc with second_level := [⟨"z", none⟩] }
    else none⟩

/-! Claim C5: metadata extraction. -/

/-- C5 counterexample: the claim says a key is never present with an
empty-string value, but on a document whose first `full_unit_name` match has
empty stripped text, `extract_additional_info` binds the key to `""` (the
code only tests that the match list is non-empty, not that the text is). -/
theorem c5_empty_string_counterexample :
    (extract_additional_info d_c5).full_unit_name = some "" := rfl

/-- C5 (amended): each of the three keys is present exactly when at least one
element matches the corresponding pattern, bound to the first match's
stripped text; the value is never null, but it may be the empty string (when
the first match's text is empty). -/
theorem c5_extract_characterization : ∀ d : Doc,
    ((extract_additional_info d).full_unit_name = none ↔ d.full_unit_name = []) ∧
    (∀ e rest, d.full_unit_name = e :: rest →
      (extract_additional_info d).full_unit_name = some e.text) ∧
    ((extract_additional_info d).location_name = none ↔ d.location_name = []) ∧
    (∀ e rest, d.location_name = e :: rest →
      (extract_additional_info d).location_name = some e.text) ∧
    ((extract_additional_info d).location_details = none ↔ d.location_details = []) ∧
    (∀ e rest, d.location_details = e :: rest →
      (extract_additional_info d).location_details = some e.text) := by
  intro d
  rcases d with ⟨f1, f2, f3, f4, f5, f6, f7, f8⟩
  cases f5 <;> cases f6 <;> cases f7 <;>
    simp_all [extract_additional_info]

/-- C5 witness: the characterization applied to a concrete document with one
match for each field. -/
theorem c5_extract_characterization_witness :
    (extract_additional_info
      { emptyDoc with
        full_unit_name := [⟨"F", none⟩],
        location_name := [⟨"L", none⟩],
        location_details := [⟨"D", none⟩] }).full_unit_name = some "F" :=
  (c5_extract_characterization _).2.1 ⟨"F", none⟩ [] rfl

/-! Claim C8: the structure classifier. -/

/-- C8: the classifier is a pure function of the document: it returns true iff
the second-level marker pattern matches at least one element, and equal
documents classify identically (there is no hidden state in the model; the
function reads only its argument). -/
theorem c8_classifier_iff : ∀ d : Doc,
    (has_nested_structure d = true ↔ ∃ e, e ∈ d.second_level) ∧
    (∀ d2 : Doc, d = d2 → has_nested_structure d = has_nested_structure d2) := by
  intro d
  constructor
  · simp [has_nested_structure, List.length_pos_iff_exists_mem]
  · intro d2 h
    rw [h]

/-- C8 witness: the classifier applied to a concrete nested document. -/
theorem c8_classifier_iff_witness : has_nested_structure docB = true :=
  (c8_classifier_iff docB).1.mpr ⟨⟨"y", none⟩, List.Mem.head _⟩

/-! Claim C9: entry-URL failure. -/

/-- C9 counterexample: the claim says entry-fetch failure is the only
condition producing an empty result, but a successfully fetched entry page
with no main-branch candidates also yields an empty branch list. -/
theorem c9_empty_result_counterexample :
    (scrape_main_components w_c9).1 = [] ∧ w_c9.pages TARGET_URL = some emptyDoc :=
  ⟨rfl, rfl⟩

/-- C9 (amended): if fetching the entry URL fails, the run returns an empty
branch list having attempted only the entry fetch and visited nothing; but
this is not the only source of an empty result — an entry page with no
main-branch candidates also yields an empty list. -/
theorem c9_entry_failure :
    (∀ w : World, w.pages TARGET_URL = none →
      scrape_main_components w = ([], ⟨[], [TARGET_URL]⟩)) ∧
    (∀ (w : World) (soup : Doc), w.pages TARGET_URL = some soup →
      soup.main_anchors = [] → (scrape_main_components w).1 = []) := by
  constructor
  · intro w h
    simp [scrape_main_components, get_soup, h]
  · intro w soup h1 h2
    simp [scrape_main_components, get_soup, h1, h2, branch_loop]

/-- C9 witness: the amended theorem applied to a world with no pages at all. -/
theorem c9_entry_failure_witness :
    scrape_main_components ⟨fun _ => none⟩ = ([], ⟨[], [TARGET_URL]⟩) :=
  c9_entry_failure.1 ⟨fun _ => none⟩ rfl

/-! Claim C7: statistics fold. -/

theorem count_subunits_fst : ∀ l, (count_subunits l).1 = desc_sum l := by
  intro l
  induction l using count_subunits.induct
  all_goals simp_all [count_subunits, desc_sum, desc_count]

theorem subcat_stats_spec : ∀ (l : List Node) (stats : Stats),
    (subcat_stats l stats).units =
      stats.units + (l.map (fun sc => ((Node.units sc).getD []).length)).sum ∧
    (subcat_stats l stats).subunits =
      stats.subunits + (l.map (fun sc => desc_sum ((Node.units sc).getD []))).sum := by
  intro l
  induction l with
  | nil => intro stats; simp [subcat_stats]
  | cons sc rest ih =>
    intro stats
    simp only [subcat_stats, List.map_cons, List.sum_cons]
    rcases hcs : count_subunits ((Node.units sc).getD []) with ⟨a, b, c, d⟩
    have ha : a = desc_sum ((Node.units sc).getD []) := by
      have := count_subunits_fst ((Node.units sc).getD [])
      rw [hcs] at this
      exact this
    simp only [hcs]
    rcases ih _ with ⟨ih1, ih2⟩
    rw [ih1, ih2]
    simp only [ha]
    constructor <;> omega

theorem branch_stats_spec : ∀ (l : List Node) (stats : Stats),
    (branch_stats l stats).units =
      stats.units + (l.map (fun b =>
        (((Node.subcategories b).getD []).map
          (fun sc => ((Node.units sc).getD []).length)).sum)).sum ∧
    (branch_stats l stats).subunits =
      stats.subunits + (l.map (fun b =>
        (((Node.subcategories b).getD []).map
          (fun sc => desc_sum ((Node.units sc).getD []))).sum)).sum := by
  intro l
  induction l with
  | nil => intro stats; simp [branch_stats]
  | cons br rest ih =>
    intro stats
    simp only [branch_stats, List.map_cons, List.sum_cons]
    rcases ih _ with ⟨ih1, ih2⟩
    rw [ih1, ih2]
    rcases subcat_stats_spec ((Node.subcategories br).getD []) _ with ⟨h1, h2⟩
    rw [h1, h2]
    constructor <;> simp <;> omega

/-- C7: the statistics fold is consistent: `units` is the sum over all main
branches' subcategories of the lengths of their immediate unit lists, and
`subunits` is the total count of all nodes reachable via `subunits` edges
from the top-level unit lists, the top-level units themselves excluded, with
an absent child field contributing zero.  (The fold is a pure Lean function
of the tree, so it cannot mutate its input.) -/
theorem c7_stats_consistency : ∀ data : List Node,
    (count_statistics data).units = units_spec data ∧
    (count_statistics data).subunits = subunits_spec data := by
  intro data
  unfold count_statistics units_spec subunits_spec
  rcases branch_stats_spec data ⟨data.length, 0, 0, 0, 0, 0, 0⟩ with ⟨h1, h2⟩
  rw [h1, h2]
  constructor <;> simp

/-! Visited-set machinery: every function only grows the visited set, only via
`addVisited`, and preserves its duplicate-freeness. -/

/-- State `s'` extends state `s`: the visited set only grew, and
duplicate-freeness is preserved. -/
def visited_extends (s s' : St) : Prop :=
  s.visited ⊆ s'.visited ∧ (s.visited.Nodup → s'.visited.Nodup)

theorem visited_extends_refl (s : St) : visited_extends s s :=
  ⟨fun _ h => h, fun h => h⟩

theorem visited_extends_trans {a b c : St}
    (h1 : visited_extends a b) (h2 : visited_extends b c) : visited_extends a c :=
  ⟨fun _ h => h2.1 (h1.1 h), fun h => h2.2 (h1.2 h)⟩

theorem visited_extends_of_eq {a b : St} (h : b.visited = a.visited) :
    visited_extends a b :=
  ⟨fun _ hm => h ▸ hm, fun hn => h ▸ hn⟩

theorem addVisited_extends (u : String) (s : St) :
    visited_extends s (addVisited u s) := by
  unfold addVisited
  split
  · exact visited_extends_refl s
  · exact ⟨fun x hx => List.mem_cons_of_mem _ hx,
      fun hn => List.nodup_cons.mpr ⟨by assumption, hn⟩⟩

theorem mem_addVisited (u : String) (s : St) : u ∈ (addVisited u s).visited := by
  unfold addVisited
  split
  · assumption
  · exact List.mem_cons_self u _

theorem get_soup_visited (w : World) (u : String) (s : St) :
    ((get_soup w u s).2).visited = s.visited := rfl

theorem flat_step_visited (w : World) (b : String) (e : Elem) (s : St) :
    ((flat_step w b e s).2).visited = s.visited := by
  unfold flat_step
  split
  · rfl
  · split
    · rfl
    · simp [get_soup]

theorem flat_loop_visited (w : World) (b : String) :
    ∀ (elems : List Elem) (s : St), ((flat_loop w b elems s).2).visited = s.visited := by
  intro elems
  induction elems with
  | nil => intro s; rfl
  | cons e rest ih =>
    intro s
    simp only [flat_loop]
    rcases hfs : flat_step w b e s with ⟨n?, s1⟩
    have hv : s1.visited = s.visited := by
      have := flat_step_visited w b e s
      rw [hfs] at this
      exact this
    cases n? with
    | none => rw [ih s1, hv]
    | some item => simp only; rw [ih s1, hv]

theorem scrape_flat_structure_visited (w : World) (soup : Doc) (b : String) (s : St) :
    ((scrape_flat_structure w soup b s).2).visited = s.visited :=
  flat_loop_visited w b soup.flat_list s

theorem child_step_extends (w : World) (rec_fn : String → St → List Node × St)
    (d M : Nat) (e : Elem) (s : St)
    (hrec : ∀ u st, visited_extends st ((rec_fn u st).2)) :
    visited_extends s ((child_step w rec_fn d M e s).2) := by
  simp only [child_step, get_soup]
  split
  · exact visited_extends_refl s
  split
  · exact visited_extends_refl s
  split
  · exact visited_extends_refl s
  split
  · split
    · split
      · refine visited_extends_trans ?_ (hrec _ _)
        exact visited_extends_of_eq rfl
      · show visited_extends s ((scrape_flat_structure w _ _ _).2)
        exact visited_extends_of_eq (by rw [scrape_flat_structure_visited])
    · exact visited_extends_of_eq rfl
  · split
    · exact visited_extends_of_eq rfl
    · exact visited_extends_of_eq rfl

theorem nested_children_extends (w : World) (rec_fn : String → St → List Node × St)
    (d M : Nat) (hrec : ∀ u st, visited_extends st ((rec_fn u st).2)) :
    ∀ (elems : List Elem) (s : St),
      visited_extends s ((nested_children w rec_fn d M elems s).2) := by
  intro elems
  induction elems with
  | nil => intro s; exact visited_extends_refl s
  | cons e rest ih =>
    intro s
    simp only [nested_children]
    rcases hcs : child_step w rec_fn d M e s with ⟨n?, s1⟩
    have hext : visited_extends s s1 := by
      have := child_step_extends w rec_fn d M e s hrec
      rw [hcs] at this
      exact this
    cases n? with
    | none => exact visited_extends_trans hext (ih s1)
    | some item =>
      simp only
      exact visited_extends_trans hext (ih s1)

theorem scrape_nested_go_extends (w : World) (M : Nat) :
    ∀ (gas : Nat) (url : String) (d : Nat) (s : St),
      visited_extends s ((scrape_nested_go w gas url d M s).2) := by
  intro gas
  induction gas with
  | zero => intro url d s; exact visited_extends_refl s
  | succ g ih =>
    intro url d s
    simp only [scrape_nested_go, get_soup]
    split
    · exact visited_extends_refl s
    · have hadd : visited_extends s (addVisited url s) := addVisited_extends url s
      cases hpg : w.pages url with
      | none =>
        simp only [hpg]
        exact visited_extends_trans hadd (visited_extends_of_eq rfl)
      | some soup =>
        simp only [hpg]
        refine visited_extends_trans hadd (visited_extends_trans ?_
          (nested_children_extends w _ d M (fun u st => ih u (d + 1) st) _ _))
        exact visited_extends_of_eq rfl

theorem scrape_nested_structure_extends (w : World) (url : String) (d M : Nat) (s : St) :
    visited_extends s ((scrape_nested_structure w url d M s).2) :=
  scrape_nested_go_extends w M (M + 1 - d) url d s

theorem subcat_step_extends (w : World) (a : Anchor) (s : St) :
    visited_extends s ((subcat_step w a s).2) := by
  simp only [subcat_step, get_soup]
  split
  · exact visited_extends_refl s
  split
  · exact visited_extends_refl s
  split
  · exact visited_extends_of_eq rfl
  split
  · refine visited_extends_trans ?_ (scrape_nested_structure_extends w _ 0 3 _)
    exact visited_extends_of_eq rfl
  · show visited_extends s ((scrape_flat_structure w _ _ _).2)
    exact visited_extends_of_eq (by rw [scrape_flat_structure_visited])

theorem subcat_loop_extends (w : World) :
    ∀ (anchors : List Anchor) (s : St),
      visited_extends s ((subcat_loop w anchors s).2) := by
  intro anchors
  induction anchors with
  | nil => intro s; exact visited_extends_refl s
  | cons a rest ih =>
    intro s
    simp only [subcat_loop]
    rcases hcs : subcat_step w a s with ⟨n?, s1⟩
    have hext : visited_extends s s1 := by
      have := subcat_step_extends w a s
      rw [hcs] at this
      exact this
    cases n? with
    | none => exact visited_extends_trans hext (ih s1)
    | some item =>
      simp only
      exact visited_extends_trans hext (ih s1)

theorem branch_step_extends (w : World) (a : Anchor) (s : St) :
    visited_extends s ((branch_step w a s).2) := by
  simp only [branch_step, get_soup]
  split
  · exact visited_extends_refl s
  split
  · exact visited_extends_refl s
  split
  · exact visited_extends_refl s
  split
  · exact visited_extends_of_eq rfl
  · refine visited_extends_trans ?_ (visited_extends_trans
      (subcat_loop_extends w _ _) (addVisited_extends _ _))
    exact visited_extends_of_eq rfl

theorem branch_loop_extends (w : World) :
    ∀ (anchors : List Anchor) (s : St),
      visited_extends s ((branch_loop w anchors s).2) := by
  intro anchors
  induction anchors with
  | nil => intro s; exact visited_extends_refl s
  | cons a rest ih =>
    intro s
    simp only [branch_loop]
    rcases hcs : branch_step w a s with ⟨n?, s1⟩
    have hext : visited_extends s s1 := by
      have := branch_step_extends w a s
      rw [hcs] at this
      exact this
    cases n? with
    | none => exact visited_extends_trans hext (ih s1)
    | some item =>
      simp only
      exact visited_extends_trans hext (ih s1)

/-! Claim C1: duplicate fetches in the nested pass. -/

/-- C1 counterexample: the claim says no URL is fetched twice during the
nested pass, but a child that is recursed into is fetched once by the parent
loop (to classify it) and a second time by the recursive invocation's own
entry fetch: in this world the child page is fetched exactly twice in one
run starting from an empty state. -/
theorem c1_double_fetch_counterexample :
    ((scrape_nested_structure w_c1 urlA 0 3 ⟨[], []⟩).2).log.count "http://b" = 2 := by
  decide

/-- C1 (amended): a URL already in the visited set is never re-expanded or
re-fetched by a nested-pass invocation (the invocation returns an empty list
with the state untouched), and the visited set never acquires duplicate
entries — per URL, the entry expansion happens at most once; however a child
that is recursed into is fetched a second time by the recursive call (see the
counterexample), and flat extraction neither consults nor updates the visited
set. -/
theorem c1_no_reexpansion :
    (∀ (w : World) (url : String) (d M : Nat) (s : St),
      url ∈ s.visited → scrape_nested_structure w url d M s = ([], s)) ∧
    (∀ (w : World) (url : String) (d M : Nat) (s : St),
      s.visited.Nodup → ((scrape_nested_structure w url d M s).2).visited.Nodup) ∧
    (∀ w : World, ((scrape_main_components w).2).visited.Nodup) := by
  refine ⟨?_, ?_, ?_⟩
  · intro w url d M s h
    unfold scrape_nested_structure
    cases hg : M + 1 - d with
    | zero => simp [scrape_nested_go]
    | succ g =>
      simp only [scrape_nested_go]
      rw [if_pos (Or.inl h)]
  · intro w url d M s h
    exact (scrape_nested_structure_extends w url d M s).2 h
  · intro w
    simp only [scrape_main_components, get_soup]
    cases hpg : w.pages TARGET_URL with
    | none => simp
    | some soup =>
      simp only
      exact (branch_loop_extends w soup.main_anchors ⟨[], [TARGET_URL]⟩).2 List.nodup_nil

/-- C1 witness: the amended theorem applied at a concrete visited state and a
concrete crawl. -/
theorem c1_no_reexpansion_witness :
    scrape_nested_structure w_c1 "u" 0 3 ⟨["u"], []⟩ = ([], ⟨["u"], []⟩) ∧
    ((scrape_nested_structure w_c1 urlA 0 3 ⟨[], []⟩).2).visited.Nodup :=
  ⟨c1_no_reexpansion.1 w_c1 "u" 0 3 ⟨["u"], []⟩ (by decide),
   c1_no_reexpansion.2.1 w_c1 urlA 0 3 ⟨[], []⟩ List.nodup_nil⟩

/-! Claim C10: which URLs enter the visited set. -/

theorem branch_step_some_url (w : World) (a : Anchor) (s : St) (n : Node) (s' : St)
    (h : branch_step w a s = (some n, s')) :
    ∃ r, Node.url n = some r ∧ r ∈ s'.visited := by
  simp only [branch_step, get_soup] at h
  split at h
  · simp at h
  split at h
  · simp at h
  split at h
  · simp at h
  split at h
  · simp at h
  · simp only [Prod.mk.injEq, Option.some.injEq] at h
    obtain ⟨hn, hs⟩ := h
    subst hn
    subst hs
    exact ⟨_, rfl, mem_addVisited _ _⟩

theorem branch_loop_urls (w : World) :
    ∀ (anchors : List Anchor) (s : St) (n : Node),
      n ∈ (branch_loop w anchors s).1 →
      ∃ r, Node.url n = some r ∧ r ∈ ((branch_loop w anchors s).2).visited := by
  intro anchors
  induction anchors with
  | nil => intro s n h; simp [branch_loop] at h
  | cons a rest ih =>
    intro s n h
    simp only [branch_loop] at h ⊢
    rcases hcs : branch_step w a s with ⟨n?, s1⟩
    rw [hcs] at h
    cases n? with
    | none => exact ih s1 n h
    | some item =>
      replace h : n = item ∨ n ∈ (branch_loop w rest s1).1 := List.mem_cons.mp h
      show ∃ r, Node.url n = some r ∧ r ∈ ((branch_loop w rest s1).2).visited
      rcases h with rfl | h
      · obtain ⟨r, hr, hmem⟩ := branch_step_some_url w a s n s1 hcs
        exact ⟨r, hr, (branch_loop_extends w rest s1).1 hmem⟩
      · exact ih s1 n h

/-- C10 counterexample: the claim says subcategory URLs are never added to the
visited set, but a nested subcategory's URL is added, because the nested pass
is entered at that URL and marks its entry URL visited: in this world
"https://currentops.com/sc" is the (fetched) subcategory page of the only
main branch, and it ends up in the visited set. -/
theorem c10_subcategory_counted_counterexample :
    "https://currentops.com/sc" ∈ ((scrape_main_components w_c10).2).visited := by
  decide

/-- C10 (amended): flat extraction never touches the visited set (so
flat-item pages, and the URLs of flat subcategories, are never counted); a
nested-pass invocation on an unvisited URL within the depth bound marks its
entry URL visited — which is how a nested subcategory's URL gets counted —
and every produced main branch's URL is in the final visited set. -/
theorem c10_visited_add_sites :
    (∀ (w : World) (soup : Doc) (b : String) (s : St),
      ((scrape_flat_structure w soup b s).2).visited = s.visited) ∧
    (∀ (w : World) (url : String) (d M : Nat) (s : St),
      url ∉ s.visited → d ≤ M →
      url ∈ ((scrape_nested_structure w url d M s).2).visited) ∧
    (∀ (w : World) (n : Node), n ∈ (scrape_main_components w).1 →
      ∃ r, Node.url n = some r ∧ r ∈ ((scrape_main_components w).2).visited) := by
  refine ⟨?_, ?_, ?_⟩
  · intro w soup b s
    exact scrape_flat_structure_visited w soup b s
  · intro w url d M s hnv hd
    unfold scrape_nested_structure
    have hg : M + 1 - d = (M - d) + 1 := by omega
    rw [hg]
    simp only [scrape_nested_go, get_soup]
    rw [if_neg (by push_neg; exact ⟨hnv, by omega⟩)]
    cases hpg : w.pages url with
    | none =>
      simp only
      exact mem_addVisited url s
    | some soup =>
      simp only
      refine (nested_children_extends w _ d M
        (fun u st => scrape_nested_go_extends w M (M - d) u (d + 1) st) _ _).1 ?_
      exact mem_addVisited url s
  · intro w n h
    simp only [scrape_main_components, get_soup] at h ⊢
    cases hpg : w.pages TARGET_URL with
    | none =>
      rw [hpg] at h
      exact absurd h (List.not_mem_nil n)
    | some soup =>
      rw [hpg] at h
      exact branch_loop_urls w soup.main_anchors _ n h

/-- C10 witness: the amended theorem applied to the concrete nested world of
the counterexample. -/
theorem c10_visited_add_sites_witness :
    ((scrape_flat_structure w_c10 emptyDoc BASE_URL ⟨[], []⟩).2).visited = [] ∧
    urlA ∈ ((scrape_nested_structure w_c1 urlA 0 3 ⟨[], []⟩).2).visited :=
  ⟨c10_visited_add_sites.1 w_c10 emptyDoc BASE_URL ⟨[], []⟩,
   c10_visited_add_sites.2.1 w_c1 urlA 0 3 ⟨[], []⟩ (by decide) (by decide)⟩

/-! Structural predicates over produced trees. -/

theorem node_all_leaf (p : Node → Bool) (nm : String) (u : Option String)
    (t : NodeType) (fu ln ld : Option String) :
    node_all p (Node.mk nm u t fu ln ld none none none) =
      p (Node.mk nm u t fu ln ld none none none) := by
  simp [node_all, opt_all]

theorem list_all_mem (p : Node → Bool) :
    ∀ l : List Node, list_all p l = true → ∀ n ∈ l, node_all p n = true := by
  intro l
  induction l with
  | nil => intro _ n hm; exact absurd hm (List.not_mem_nil n)
  | cons a rest ih =>
    intro h n hm
    simp only [list_all, Bool.and_eq_true] at h
    rcases List.mem_cons.mp hm with rfl | hm
    · exact h.1
    · exact ih h.2 n hm

theorem flat_step_some (w : World) (b : String) (e : Elem) (s : St) (n : Node) (s' : St)
    (h : flat_step w b e s = (some n, s')) :
    ∃ r fu ln ld, n = Node.mk e.text (some r) NodeType.flat_item fu ln ld none none none ∧
      e.text ≠ "" := by
  simp only [flat_step, get_soup] at h
  split at h
  · simp at h
  split at h
  · simp at h
  · simp only [Prod.mk.injEq, Option.some.injEq] at h
    exact ⟨_, _, _, _, h.1.symm, by assumption⟩

theorem child_step_some (w : World) (rec_fn : String → St → List Node × St)
    (d M : Nat) (e : Elem) (s : St) (n : Node) (s' : St)
    (h : child_step w rec_fn d M e s = (some n, s')) :
    ∃ r fu ln ld su,
      n = Node.mk e.text (some r) (NodeType.level_item (d + 1)) fu ln ld none none su ∧
      e.text ≠ "" ∧
      (su = none ∨
        (d < M ∧ ∃ l, su = some l ∧ l.isEmpty = false ∧
          ((∃ u st, ((rec_fn u st).1) = l) ∨
           (∃ soup bu st, ((scrape_flat_structure w soup bu st).1) = l)))) := by
  simp only [child_step, get_soup] at h
  split at h
  · simp at h
  split at h
  · simp at h
  split at h
  · simp at h
  split at h
  · split at h
    · split at h
      · simp only [Prod.mk.injEq, Option.some.injEq] at h
        split at h
        · exact ⟨_, _, _, _, _, h.1.symm, by assumption, Or.inl rfl⟩
        · rename_i hne
          refine ⟨_, _, _, _, _, h.1.symm, by assumption,
            Or.inr ⟨by assumption, _, rfl, ?_, Or.inl ⟨_, _, rfl⟩⟩⟩
          exact Bool.not_eq_true _ ▸ hne
      · simp only [Prod.mk.injEq, Option.some.injEq] at h
        split at h
        · exact ⟨_, _, _, _, _, h.1.symm, by assumption, Or.inl rfl⟩
        · rename_i hne
          refine ⟨_, _, _, _, _, h.1.symm, by assumption,
            Or.inr ⟨by assumption, _, rfl, ?_, Or.inr ⟨_, _, _, rfl⟩⟩⟩
          exact Bool.not_eq_true _ ▸ hne
    · simp only [Prod.mk.injEq, Option.some.injEq] at h
      exact ⟨_, _, _, _, _, h.1.symm, by assumption, Or.inl rfl⟩
  · simp only [Prod.mk.injEq, Option.some.injEq] at h
    refine ⟨_, _, _, _, _, h.1.symm, by assumption, Or.inl ?_⟩
    split <;> rfl

theorem flat_loop_all (w : World) (p : Node → Bool)
    (hp : ∀ nm r fu ln ld, nm ≠ "" →
      p (Node.mk nm (some r) NodeType.flat_item fu ln ld none none none) = true) :
    ∀ (b : String) (elems : List Elem) (s : St),
      list_all p ((flat_loop w b elems s).1) = true := by
  intro b elems
  induction elems with
  | nil => intro s; rfl
  | cons e rest ih =>
    intro s
    simp only [flat_loop]
    rcases hcs : flat_step w b e s with ⟨n?, s1⟩
    cases n? with
    | none => exact ih s1
    | some item =>
      show list_all p (item :: (flat_loop w b rest s1).1) = true
      simp only [list_all, Bool.and_eq_true]
      obtain ⟨r, fu, ln, ld, heq, hne⟩ := flat_step_some w b e s item s1 hcs
      subst heq
      rw [node_all_leaf]
      exact ⟨hp _ _ _ _ _ hne, ih s1⟩

theorem scrape_flat_structure_all (w : World) (p : Node → Bool)
    (hp : ∀ nm r fu ln ld, nm ≠ "" →
      p (Node.mk nm (some r) NodeType.flat_item fu ln ld none none none) = true)
    (soup : Doc) (b : String) (s : St) :
    list_all p ((scrape_flat_structure w soup b s).1) = true :=
  flat_loop_all w p hp b soup.flat_list s

theorem nested_children_all (w : World) (rec_fn : String → St → List Node × St)
    (d M : Nat) (p : Node → Bool)
    (hrec : ∀ u st, list_all p ((rec_fn u st).1) = true)
    (hflatp : ∀ nm r fu ln ld, nm ≠ "" →
      p (Node.mk nm (some r) NodeType.flat_item fu ln ld none none none) = true)
    (hitem : ∀ nm r fu ln ld su, nm ≠ "" →
      (su = none ∨ ∃ l, su = some l ∧ l.isEmpty = false) →
      p (Node.mk nm (some r) (NodeType.level_item (d + 1)) fu ln ld none none su) = true) :
    ∀ (elems : List Elem) (s : St),
      list_all p ((nested_children w rec_fn d M elems s).1) = true := by
  intro elems
  induction elems with
  | nil => intro s; rfl
  | cons e rest ih =>
    intro s
    simp only [nested_children]
    rcases hcs : child_step w rec_fn d M e s with ⟨n?, s1⟩
    cases n? with
    | none => exact ih s1
    | some item =>
      show list_all p (item :: (nested_children w rec_fn d M rest s1).1) = true
      simp only [list_all, Bool.and_eq_true]
      obtain ⟨r, fu, ln, ld, su, heq, hne, hsu⟩ :=
        child_step_some w rec_fn d M e s item s1 hcs
      subst heq
      refine ⟨?_, ih s1⟩
      simp only [node_all, opt_all, Bool.and_eq_true]
      refine ⟨⟨⟨hitem _ _ _ _ _ _ hne ?_, trivial⟩, trivial⟩, ?_⟩
      · rcases hsu with rfl | ⟨_, l, rfl, hl, _⟩
        · exact Or.inl rfl
        · exact Or.inr ⟨l, rfl, hl⟩
      · rcases hsu with rfl | ⟨_, l, rfl, _, hprov⟩
        · rfl
        · show list_all p l = true
          rcases hprov with ⟨u, st, hl⟩ | ⟨soup, bu, st, hl⟩
          · rw [← hl]; exact hrec u st
          · rw [← hl]; exact scrape_flat_structure_all w p hflatp soup bu st

theorem scrape_nested_go_all (w : World) (M : Nat) (p : Node → Bool)
    (hflatp : ∀ nm r fu ln ld, nm ≠ "" →
      p (Node.mk nm (some r) NodeType.flat_item fu ln ld none none none) = true)
    (hitem : ∀ d : Nat, d ≤ M → ∀ nm r fu ln ld su, nm ≠ "" →
      (su = none ∨ ∃ l, su = some l ∧ l.isEmpty = false) →
      p (Node.mk nm (some r) (NodeType.level_item (d + 1)) fu ln ld none none su) = true) :
    ∀ (gas : Nat) (url : String) (d : Nat) (s : St),
      list_all p ((scrape_nested_go w gas url d M s).1) = true := by
  intro gas
  induction gas with
  | zero => intro url d s; rfl
  | succ g ih =>
    intro url d s
    simp only [scrape_nested_go, get_soup]
    split
    · rfl
    · rename_i hguard
      push_neg at hguard
      cases hpg : w.pages url with
      | none => rfl
      | some soup =>
        exact nested_children_all w _ d M p (fun u st => ih u (d + 1) st) hflatp
          (hitem d (by omega)) _ _

theorem scrape_nested_structure_all (w : World) (M : Nat) (p : Node → Bool)
    (hflatp : ∀ nm r fu ln ld, nm ≠ "" →
      p (Node.mk nm (some r) NodeType.flat_item fu ln ld none none none) = true)
    (hitem : ∀ d : Nat, d ≤ M → ∀ nm r fu ln ld su, nm ≠ "" →
      (su = none ∨ ∃ l, su = some l ∧ l.isEmpty = false) →
      p (Node.mk nm (some r) (NodeType.level_item (d + 1)) fu ln ld none none su) = true)
    (url : String) (d : Nat) (s : St) :
    list_all p ((scrape_nested_structure w url d M s).1) = true :=
  scrape_nested_go_all w M p hflatp hitem (M + 1 - d) url d s

theorem nested_children_top (w : World) (rec_fn : String → St → List Node × St) (d M : Nat) :
    ∀ (elems : List Elem) (s : St), ∀ n ∈ (nested_children w rec_fn d M elems s).1,
      Node.type n = NodeType.level_item (d + 1) ∧ (¬ d < M → Node.subunits n = none) := by
  intro elems
  induction elems with
  | nil => intro s n hm; exact absurd hm (List.not_mem_nil n)
  | cons e rest ih =>
    intro s n hm
    simp only [nested_children] at hm
    rcases hcs : child_step w rec_fn d M e s with ⟨n?, s1⟩
    rw [hcs] at hm
    cases n? with
    | none => exact ih s1 n hm
    | some item =>
      replace hm : n = item ∨ n ∈ (nested_children w rec_fn d M rest s1).1 :=
        List.mem_cons.mp hm
      rcases hm with rfl | hm
      · obtain ⟨r, fu, ln, ld, su, heq, hne, hsu⟩ :=
          child_step_some w rec_fn d M e s n s1 hcs
        subst heq
        refine ⟨rfl, ?_⟩
        intro hdM
        rcases hsu with rfl | ⟨hlt, _⟩
        · rfl
        · exact absurd hlt hdM
      · exact ih s1 n hm

theorem scrape_nested_top (w : World) (M gas : Nat) (url : String) (d : Nat) (s : St) :
    ∀ n ∈ (scrape_nested_go w gas url d M s).1,
      Node.type n = NodeType.level_item (d + 1) ∧ (¬ d < M → Node.subunits n = none) := by
  cases gas with
  | zero => intro n hm; exact absurd hm (List.not_mem_nil n)
  | succ g =>
    intro n hm
    simp only [scrape_nested_go, get_soup] at hm
    split at hm
    · exact absurd hm (List.not_mem_nil n)
    · cases hpg : w.pages url with
      | none => rw [hpg] at hm; exact absurd hm (List.not_mem_nil n)
      | some soup =>
        rw [hpg] at hm
        exact nested_children_top w _ d M _ _ n hm

/-- C2: the depth bound.  An invocation at depth strictly greater than
`max_depth` returns an empty list with the state (visited set and fetch log)
completely unchanged, so no fetch is issued for URLs discovered strictly
beyond the bound; every child built at depth `d` carries kind
`level_(d+1)_item`, all kind tags anywhere in the produced forest are either
`flat_item` or `level_k` with `k ≤ max_depth + 1`; and a child discovered at
depth `max_depth` is a pure leaf: it has no `subunits` collection at all (it
is neither recursed into nor flat-extracted). -/
theorem c2_depth_bound :
    ∀ (w : World) (url : String) (d M : Nat) (s : St),
      (d > M → scrape_nested_structure w url d M s = ([], s)) ∧
      (∀ n ∈ (scrape_nested_structure w url d M s).1,
        Node.type n = NodeType.level_item (d + 1) ∧ kind_bound (M + 1) n = true) ∧
      (d = M → ∀ n ∈ (scrape_nested_structure w url d M s).1,
        Node.subunits n = none) := by
  intro w url d M s
  refine ⟨?_, ?_, ?_⟩
  · intro hd
    unfold scrape_nested_structure
    have h0 : M + 1 - d = 0 := by omega
    rw [h0]
    rfl
  · intro n hm
    refine ⟨(scrape_nested_top w M (M + 1 - d) url d s n hm).1, ?_⟩
    refine list_all_mem _ _ ?_ n hm
    refine scrape_nested_structure_all w M (fun m => kind_ok (M + 1) (Node.type m))
      (fun nm r fu ln ld hne => rfl) ?_ url d s
    intro d' hd' nm r fu ln ld su hne hsu
    show kind_ok (M + 1) (NodeType.level_item (d' + 1)) = true
    simp only [kind_ok, decide_eq_true_eq]
    omega
  · intro hdM n hm
    exact (scrape_nested_top w M (M + 1 - d) url d s n hm).2 (by omega)

/-- C2 witness: a too-deep invocation returns empty with unchanged state, and
the node produced by a concrete run at depth 0 has kind tag within the
bound. -/
theorem c2_depth_bound_witness :
    scrape_nested_structure w_c1 "u" 5 3 ⟨[], []⟩ = ([], ⟨[], []⟩) ∧
    kind_bound 4 (Node.mk "x" (some "http://b") (NodeType.level_item 1)
      none none none none none none) = true :=
  ⟨(c2_depth_bound w_c1 "u" 5 3 ⟨[], []⟩).1 (by omega),
   ((c2_depth_bound w_c1 urlA 0 3 ⟨[], []⟩).2.1
     (Node.mk "x" (some "http://b") (NodeType.level_item 1) none none none none none none)
     (List.Mem.head _)).2⟩

/-! Claim C3: non-empty names. -/

/-- C3 counterexample: the claim says every pass discards candidates with
empty display text, but the top-level main-branch scan only checks that the
`h4` heading exists, not that its text is non-empty: in this world the
produced tree contains a main-branch node whose name is the empty string. -/
theorem c3_empty_name_counterexample :
    ((scrape_main_components w_c3).1.map Node.name) = [""] := rfl

/-- C3 (amended): in the nested pass and flat extraction, every produced node
— including all descendants — has a non-empty name (candidates with empty or
missing text are discarded before a node is created); but in the top-level
main-branch and subcategory scans only candidates with a missing heading are
discarded, so a heading with empty text still yields a node (see the
counterexample). -/
theorem c3_nonempty_names :
    (∀ (w : World) (soup : Doc) (b : String) (s : St),
      ∀ n ∈ (scrape_flat_structure w soup b s).1, names_ok n = true) ∧
    (∀ (w : World) (url : String) (d M : Nat) (s : St),
      ∀ n ∈ (scrape_nested_structure w url d M s).1, names_ok n = true) := by
  have hp : ∀ (nm r : String) (fu ln ld : Option String), nm ≠ "" →
      (fun m => decide (Node.name m ≠ ""))
        (Node.mk nm (some r) NodeType.flat_item fu ln ld none none none) = true :=
    fun nm r fu ln ld hne => decide_eq_true hne
  constructor
  · intro w soup b s n hm
    exact list_all_mem _ _ (scrape_flat_structure_all w _ hp soup b s) n hm
  · intro w url d M s n hm
    refine list_all_mem _ _ ?_ n hm
    refine scrape_nested_structure_all w M _ hp ?_ url d s
    intro d' hd' nm r fu ln ld su hne hsu
    exact decide_eq_true hne

/-- C3 witness: the amended theorem applied to the node of a concrete nested
run. -/
theorem c3_nonempty_names_witness :
    names_ok (Node.mk "x" (some "http://b") (NodeType.level_item 1)
      none none none none none none) = true :=
  c3_nonempty_names.2 w_c1 urlA 0 3 ⟨[], []⟩ _ (List.Mem.head _)

/-! Claim C6: absence over emptiness. -/

theorem opt_ne_of {su : Option (List Node)}
    (hsu : su = none ∨ ∃ l, su = some l ∧ l.isEmpty = false) : opt_ne su = true := by
  rcases hsu with rfl | ⟨l, rfl, hl⟩
  · rfl
  · cases l
    · simp [List.isEmpty] at hl
    · rfl

theorem ne_hflat : ∀ (nm r : String) (fu ln ld : Option String), nm ≠ "" →
    child_fields_ok (Node.mk nm (some r) NodeType.flat_item fu ln ld none none none) = true :=
  fun _ _ _ _ _ _ => rfl

theorem ne_nested (w : World) (M : Nat) (url : String) (d : Nat) (s : St) :
    list_all child_fields_ok ((scrape_nested_structure w url d M s).1) = true := by
  refine scrape_nested_structure_all w M child_fields_ok ne_hflat ?_ url d s
  intro d' hd' nm r fu ln ld su hne hsu
  show (opt_ne none && opt_ne none && opt_ne su) = true
  simp only [Bool.and_eq_true]
  exact ⟨⟨rfl, rfl⟩, opt_ne_of hsu⟩

theorem subcat_step_some (w : World) (a : Anchor) (s : St) (n : Node) (s' : St)
    (h : subcat_step w a s = (some n, s')) :
    ∃ nm r fu ln ld un,
      n = Node.mk nm (some r) NodeType.subcategory fu ln ld none un none ∧
      (un = none ∨ ∃ l, un = some l ∧ l.isEmpty = false ∧
        ((∃ st, ((scrape_nested_structure w r 0 3 st).1) = l) ∨
         (∃ soup st, ((scrape_flat_structure w soup r st).1) = l))) := by
  simp only [subcat_step, get_soup] at h
  split at h
  · simp at h
  split at h
  · simp at h
  split at h
  · simp at h
  · split at h
    · simp only [Prod.mk.injEq, Option.some.injEq] at h
      split at h
      · exact ⟨_, _, _, _, _, _, h.1.symm, Or.inl rfl⟩
      · rename_i hne
        exact ⟨_, _, _, _, _, _, h.1.symm,
          Or.inr ⟨_, rfl, Bool.not_eq_true _ ▸ hne, Or.inl ⟨_, rfl⟩⟩⟩
    · simp only [Prod.mk.injEq, Option.some.injEq] at h
      split at h
      · exact ⟨_, _, _, _, _, _, h.1.symm, Or.inl rfl⟩
      · rename_i hne
        exact ⟨_, _, _, _, _, _, h.1.symm,
          Or.inr ⟨_, rfl, Bool.not_eq_true _ ▸ hne, Or.inr ⟨_, _, rfl⟩⟩⟩

theorem subcat_loop_ne (w : World) :
    ∀ (anchors : List Anchor) (s : St),
      list_all child_fields_ok ((subcat_loop w anchors s).1) = true := by
  intro anchors
  induction anchors with
  | nil => intro s; rfl
  | cons a rest ih =>
    intro s
    simp only [subcat_loop]
    rcases hcs : subcat_step w a s with ⟨n?, s1⟩
    cases n? with
    | none => exact ih s1
    | some item =>
      show list_all child_fields_ok (item :: (subcat_loop w rest s1).1) = true
      simp only [list_all, Bool.and_eq_true]
      refine ⟨?_, ih s1⟩
      obtain ⟨nm, r, fu, ln, ld, un, heq, hun⟩ := subcat_step_some w a s item s1 hcs
      subst heq
      have h1 : child_fields_ok
          (Node.mk nm (some r) NodeType.subcategory fu ln ld none un none) = true := by
        show (opt_ne none && opt_ne un && opt_ne none) = true
        simp only [Bool.and_eq_true]
        refine ⟨⟨rfl, ?_⟩, rfl⟩
        rcases hun with rfl | ⟨l, rfl, hl, _⟩
        · rfl
        · exact opt_ne_of (Or.inr ⟨l, rfl, hl⟩)
      have h2 : opt_all child_fields_ok un = true := by
        rcases hun with rfl | ⟨l, rfl, hl, hprov⟩
        · rfl
        · show list_all child_fields_ok l = true
          rcases hprov with ⟨st, hlr⟩ | ⟨soup, st, hlr⟩
          · rw [← hlr]; exact ne_nested w 3 r 0 st
          · rw [← hlr]; exact scrape_flat_structure_all w _ ne_hflat soup r st
      simp only [node_all, Bool.and_eq_true]
      exact ⟨⟨⟨h1, rfl⟩, h2⟩, rfl⟩

theorem branch_step_shape (w : World) (a : Anchor) (s : St) (n : Node) (s' : St)
    (h : branch_step w a s = (some n, s')) :
    ∃ nm r fu ln ld sc,
      n = Node.mk nm (some r) NodeType.main_branch fu ln ld sc none none ∧
      (sc = none ∨ ∃ l, sc = some l ∧ l.isEmpty = false ∧
        ∃ anc st, ((subcat_loop w anc st).1) = l) := by
  simp only [branch_step, get_soup] at h
  split at h
  · simp at h
  split at h
  · simp at h
  split at h
  · simp at h
  split at h
  · simp at h
  · simp only [Prod.mk.injEq, Option.some.injEq] at h
    split at h
    · exact ⟨_, _, _, _, _, _, h.1.symm, Or.inl rfl⟩
    · rename_i hne
      exact ⟨_, _, _, _, _, _, h.1.symm,
        Or.inr ⟨_, rfl, Bool.not_eq_true _ ▸ hne, _, _, rfl⟩⟩

theorem branch_loop_ne (w : World) :
    ∀ (anchors : List Anchor) (s : St),
      list_all child_fields_ok ((branch_loop w anchors s).1) = true := by
  intro anchors
  induction anchors with
  | nil => intro s; rfl
  | cons a rest ih =>
    intro s
    simp only [branch_loop]
    rcases hcs : branch_step w a s with ⟨n?, s1⟩
    cases n? with
    | none => exact ih s1
    | some item =>
      show list_all child_fields_ok (item :: (branch_loop w rest s1).1) = true
      simp only [list_all, Bool.and_eq_true]
      refine ⟨?_, ih s1⟩
      obtain ⟨nm, r, fu, ln, ld, sc, heq, hsc⟩ := branch_step_shape w a s item s1 hcs
      subst heq
      have h1 : child_fields_ok
          (Node.mk nm (some r) NodeType.main_branch fu ln ld sc none none) = true := by
        show (opt_ne sc && opt_ne none && opt_ne none) = true
        simp only [Bool.and_eq_true]
        refine ⟨⟨?_, rfl⟩, rfl⟩
        rcases hsc with rfl | ⟨l, rfl, hl, _⟩
        · rfl
        · exact opt_ne_of (Or.inr ⟨l, rfl, hl⟩)
      have h2 : opt_all child_fields_ok sc = true := by
        rcases hsc with rfl | ⟨l, rfl, hl, anc, st, hlr⟩
        · rfl
        · show list_all child_fields_ok l = true
          rw [← hlr]
          exact subcat_loop_ne w anc st
      simp only [node_all, Bool.and_eq_true]
      exact ⟨⟨⟨h1, h2⟩, rfl⟩, rfl⟩

/-- C6: for every node anywhere in the produced tree, each of the three
child-collection fields (`subcategories`, `units`, `subunits`) is never a
present-but-empty list: a node with zero computed children has the field
entirely absent (and a present field always holds the non-empty computed
list). -/
theorem c6_no_empty_child_lists :
    ∀ (w : World), ∀ n ∈ (scrape_main_components w).1, no_empty_children n = true := by
  intro w n hm
  simp only [scrape_main_components, get_soup] at hm
  cases hpg : w.pages TARGET_URL with
  | none => rw [hpg] at hm; exact absurd hm (List.not_mem_nil n)
  | some soup =>
    rw [hpg] at hm
    exact list_all_mem _ _ (branch_loop_ne w soup.main_anchors _) n hm

/-- C6 witness: the theorem applied to the branch node of a concrete crawl. -/
theorem c6_no_empty_child_lists_witness :
    no_empty_children (Node.mk "" (some "https://currentops.com/b")
      NodeType.main_branch none none none none none none) = true :=
  c6_no_empty_child_lists w_c3 _ (List.Mem.head _)

/-! Claim C4: fetch-failure handling. -/

/-- C4 counterexample: the claim says a main-branch candidate whose page
fetch fails still yields a node with empty metadata, but the code drops the
candidate: in this world the entry page has one main-branch candidate, its
page fetch fails (the log shows the attempt), and the resulting tree is
empty. -/
theorem c4_dropped_branch_counterexample :
    (scrape_main_components w_c4).1 = [] ∧
    ((scrape_main_components w_c4).2).log = [TARGET_URL, "https://currentops.com/b"] :=
  ⟨rfl, rfl⟩

/-- C4 (amended): a fetch failure is absorbed and the crawl continues in
every pass, but what happens to the candidate differs: a flat-list item or a
nested-pass child whose page fetch fails still becomes a node, with all three
metadata keys absent and no child collection; a main-branch or subcategory
candidate whose page fetch fails is dropped entirely (the loop just moves on
to the remaining candidates). -/
theorem c4_fetch_failure_absorbed :
    (∀ (w : World) (b : String) (e : Elem) (hstr : String) (rest : List Elem) (s : St),
      e.text ≠ "" → e.href = some hstr → w.pages (resolve_href b hstr) = none →
      flat_loop w b (e :: rest) s =
        (Node.mk e.text (some (resolve_href b hstr)) NodeType.flat_item
            none none none none none none ::
          (flat_loop w b rest { s with log := s.log ++ [resolve_href b hstr] }).1,
         (flat_loop w b rest { s with log := s.log ++ [resolve_href b hstr] }).2)) ∧
    (∀ (w : World) (rec_fn : String → St → List Node × St) (d M : Nat)
        (e : Elem) (hstr : String) (rest : List Elem) (s : St),
      e.text ≠ "" → e.href = some hstr →
      resolve_href BASE_URL hstr ∉ s.visited →
      w.pages (resolve_href BASE_URL hstr) = none →
      nested_children w rec_fn d M (e :: rest) s =
        (Node.mk e.text (some (resolve_href BASE_URL hstr)) (NodeType.level_item (d + 1))
            none none none none none none ::
          (nested_children w rec_fn d M rest
            { s with log := s.log ++ [resolve_href BASE_URL hstr] }).1,
         (nested_children w rec_fn d M rest
            { s with log := s.log ++ [resolve_href BASE_URL hstr] }).2)) ∧
    (∀ (w : World) (a : Anchor) (nm hstr : String) (rest : List Anchor) (s : St),
      a.h4 = some nm → a.href = some hstr →
      w.pages (resolve_href BASE_URL hstr) = none →
      subcat_loop w (a :: rest) s =
        subcat_loop w rest { s with log := s.log ++ [resolve_href BASE_URL hstr] }) ∧
    (∀ (w : World) (a : Anchor) (nm hstr : String) (rest : List Anchor) (s : St),
      a.h4 = some nm → a.href = some hstr →
      resolve_href BASE_URL hstr ∉ s.visited →
      w.pages (resolve_href BASE_URL hstr) = none →
      branch_loop w (a :: rest) s =
        branch_loop w rest { s with log := s.log ++ [resolve_href BASE_URL hstr] }) := by
  refine ⟨?_, ?_, ?_, ?_⟩
  · intro w b e hstr rest s hne heq hpg
    simp only [flat_loop, flat_step, get_soup, heq, if_neg hne, hpg, Info.empty]
  · intro w rec_fn d M e hstr rest s hne heq hnv hpg
    simp only [nested_children, child_step, get_soup, heq, if_neg hne, if_neg hnv, hpg,
      ite_self, Info.empty]
  · intro w a nm hstr rest s hh4 heq hpg
    simp only [subcat_loop, subcat_step, get_soup, hh4, heq, hpg]
  · intro w a nm hstr rest s hh4 heq hnv hpg
    simp only [branch_loop, branch_step, get_soup, hh4, heq, if_neg hnv, hpg]

/-- C4 witness: the amended theorem applied to one concrete nested-pass child
whose page fetch fails: a leaf node with no metadata is still produced and
the loop terminates normally. -/
theorem c4_fetch_failure_absorbed_witness :
    nested_children w_c4 (fun _ st => ([], st)) 0 3
        [⟨"x", some "http://gone"⟩] ⟨[], []⟩ =
      ([Node.mk "x" (some "http://gone") (NodeType.level_item 1)
          none none none none none none],
       ⟨[], ["http://gone"]⟩) := by
  have h := c4_fetch_failure_absorbed.2.1 w_c4 (fun _ st => ([], st)) 0 3
    ⟨"x", some "http://gone"⟩ "http://gone" [] ⟨[], []⟩ (by decide) rfl (by decide) (by decide)
  exact h.trans (by rfl)

/-- The function `scrape_nested_structure` satisfies, for every input, exactly
the recurrence of the Python body: return empty on a visited URL or excessive
depth; otherwise mark the URL visited, fetch it (returning empty on failure),
select the depth-dependent child elements, and process them with the
recursive call at depth + 1.  This discharges the gas-based encoding of the
recursion. -/
theorem scrape_nested_structure_eq (w : World) (url : String) (d M : Nat) (s : St) :
    scrape_nested_structure w url d M s =
      if url ∈ s.visited ∨ d > M then ([], s)
      else
        let s1 := addVisited url s
        let (soup_opt, s2) := get_soup w url s1
        match soup_opt with
        | none => ([], s2)
        | some soup =>
          let elements :=
            if d = 0 then soup.first_level
            else if d = 1 then soup.second_level
            else soup.third_level
          nested_children w (fun u st => scrape_nested_structure w u (d + 1) M st)
            d M elements s2 := by
  rcases Nat.lt_or_ge M d with hd | hd
  · unfold scrape_nested_structure
    have h0 : M + 1 - d = 0 := by omega
    rw [h0, if_pos (Or.inr hd)]
    rfl
  · unfold scrape_nested_structure
    have h1 : M + 1 - d = (M - d) + 1 := by omega
    have h2 : M + 1 - (d + 1) = M - d := by omega
    rw [h1, h2]
    rfl
